import Mathlib

set_option maxRecDepth 4000

/-!
Verification of the deterministic game engine and session/latency handlers of
the distributed-game-mechanic repository.

The Go backend engine (`deterministic-backend/internal/engine/engine.go`) is
embedded in namespace `Engine`; the TypeScript tick-broadcaster engine
(`src/engine.ts`) is embedded in namespace `TsEngine`.  Machine integers are
modelled as `Int`/`Nat` with explicit reduction modulo `2^64` where the source
operates on 64-bit lanes; times are integer milliseconds.  `Math.floor` of an
integer quotient is modelled as exact floor division (`Int.fdiv`), which
matches the source for all inputs representable without floating-point
rounding.
-/

/-- The computed deterministic state: Go `engine.State` / TS `GameState`.
Both sources carry exactly the fields step/value/round/broken. -/
structure State where
  step : Int
  value : Int
  round : Int
  broken : Bool
deriving DecidableEq

/-- Internal simulation accumulator shared by both loop embeddings:
`value`/`round` plus the steps-within-round counter (Go `stepWithinRound`,
TS `stepsSinceBreak`) and the `broken` flag.  The Go variable `nextBreakAt`
and the TS variable `stepsUntilBreak` always hold
`computeBreakInterval seed round` for the current round, so they are
recomputed from `round` instead of being stored. -/
structure SimSt where
  value : Nat
  round : Nat
  ssb : Nat
  broken : Bool
deriving DecidableEq

/-- Loop-entry accumulator: `value=0, round=0, stepsSinceBreak=0, broken=false`
in both sources. -/
def initSt : SimSt := ⟨0, 0, 0, false⟩

/-- Reinterpretation of a (two's-complement) integer as an unsigned 64-bit
value: Go `uint64(x)` on an `int64`. -/
def u64ofInt (i : Int) : Nat := (i % (2 ^ 64 : Int)).toNat

namespace Engine

/-- Go `xorshift64`: `state ^= state << 13; state ^= state >> 7; state ^= state << 17`
with every operation on a `uint64` lane (each left shift discards bits ≥ 64).
Callers pass `state < 2^64`. -/
def xorshift64 (state : Nat) : Nat :=
  let a := state ^^^ ((state <<< 13) % 2 ^ 64)
  let b := a ^^^ (a >>> 7)
  b ^^^ ((b <<< 17) % 2 ^ 64)

/-- Go `computeBreakInterval`: `combined := seed ^ round`,
`rng := xorshift64(uint64(combined))`, `interval := 100 + int64(rng % 201)`. -/
def computeBreakInterval (seed round : Int) : Nat :=
  100 + xorshift64 (u64ofInt (Int.xor seed round)) % 201

/-- One iteration of the Go simulation loop body at step index `s`:
break when `stepWithinRound >= nextBreakAt && s > 0`, else increment
counter and value. -/
def iter (seed : Int) (s : Nat) (st : SimSt) : SimSt :=
  if computeBreakInterval seed st.round ≤ st.ssb ∧ 0 < s then
    ⟨0, st.round + 1, 0, true⟩
  else
    ⟨st.value + 1, st.round, st.ssb + 1, false⟩

/-- The Go loop `for s := int64(0); s <= step; s++` run up to step index `n`. -/
def sim (seed : Int) : Nat → SimSt
  | 0 => iter seed 0 initSt
  | n + 1 => iter seed (n + 1) (sim seed n)

/-- Go `StepAt`: 0 before start, otherwise `floor(elapsed / tickMs)` clamped
to be non-negative. -/
def StepAt (startAt tickMs now : Int) : Int :=
  if now < startAt then 0
  else
    let elapsed := now - startAt
    let step := Int.fdiv elapsed tickMs
    if step < 0 then 0 else step

/-- Go `StateAt`: early-out before `startAt` (and on negative step), otherwise
simulate steps `0..step` and report the final accumulator. -/
def StateAt (seed startAt tickMs now : Int) : State :=
  if now < startAt then ⟨0, 0, 0, false⟩
  else
    let step := Int.fdiv (now - startAt) tickMs
    if step < 0 then ⟨0, 0, 0, false⟩
    else
      let st := sim seed step.toNat
      ⟨step, st.value, st.round, st.broken⟩

theorem computeBreakInterval_lb (seed round : Int) :
    100 ≤ computeBreakInterval seed round :=
  Nat.le_add_right 100 _

theorem computeBreakInterval_ub (seed round : Int) :
    computeBreakInterval seed round ≤ 300 := by
  have h : xorshift64 (u64ofInt (Int.xor seed round)) % 201 < 201 :=
    Nat.mod_lt _ (by norm_num)
  unfold computeBreakInterval
  omega

/-- Before the first break interval is reached no break occurs: after
iteration `n < I(seed,0)` the Go accumulator is `⟨n+1, 0, n+1, false⟩`. -/
theorem sim_no_break (seed : Int) (n : Nat)
    (h : n < computeBreakInterval seed 0) :
    sim seed n = ⟨n + 1, 0, n + 1, false⟩ := by
  induction n with
  | zero =>
    simp [sim, iter, initSt]
  | succ n ih =>
    have hn : n < computeBreakInterval seed 0 := Nat.lt_of_succ_lt h
    have hr : sim seed n = ⟨n + 1, 0, n + 1, false⟩ := ih hn
    simp only [sim, iter, hr]
    rw [if_neg]
    simp only [Nat.cast_zero]
    omega

/-- The Go accumulator keeps `value = stepWithinRound` and
`stepWithinRound ≤ I(seed, round)` at every step. -/
theorem sim_invariant (seed : Int) (n : Nat) :
    (sim seed n).value = (sim seed n).ssb ∧
      (sim seed n).ssb ≤ computeBreakInterval seed ((sim seed n).round : Int) := by
  induction n with
  | zero =>
    have h100 := computeBreakInterval_lb seed 0
    simp [sim, iter, initSt]
    omega
  | succ n ih =>
    simp only [sim, iter]
    split
    · simp
    · next hcond =>
      have hlt : (sim seed n).ssb < computeBreakInterval seed ((sim seed n).round : Int) := by
        rcases Nat.lt_or_ge (sim seed n).ssb
            (computeBreakInterval seed ((sim seed n).round : Int)) with h | h
        · exact h
        · exact absurd ⟨h, Nat.succ_pos n⟩ hcond
      refine ⟨?_, ?_⟩
      · show (sim seed n).value + 1 = (sim seed n).ssb + 1
        rw [ih.1]
      · show (sim seed n).ssb + 1 ≤ computeBreakInterval seed ((sim seed n).round : Int)
        exact hlt

/-- Go round counter never decreases over one iteration. -/
theorem sim_round_le_succ (seed : Int) (n : Nat) :
    (sim seed n).round ≤ (sim seed (n + 1)).round := by
  conv_rhs => rw [sim]
  unfold iter
  split <;> simp

/-- Go round counter is monotone in the step index. -/
theorem sim_round_mono (seed : Int) {m n : Nat} (h : m ≤ n) :
    (sim seed m).round ≤ (sim seed n).round := by
  induction h with
  | refl => exact Nat.le_refl _
  | step _ ih => exact Nat.le_trans ih (sim_round_le_succ seed _)

/-- The round field of `StateAt` is never negative. -/
theorem StateAt_round_nonneg (seed startAt tickMs now : Int) :
    0 ≤ (StateAt seed startAt tickMs now).round := by
  by_cases h : now < startAt <;>
    by_cases h2 : Int.fdiv (now - startAt) tickMs < 0 <;>
      simp [StateAt, h, h2]

end Engine

namespace TsEngine

/-- TS `xorshift64` on `bigint`: the three shift/xor steps run at arbitrary
precision and the result is masked with `0xFFFFFFFFFFFFFFFF` only at the end. -/
def xorshift64 (state : Nat) : Nat :=
  let a := state ^^^ (state <<< 13)
  let b := a ^^^ (a >>> 7)
  let c := b ^^^ (b <<< 17)
  c &&& 0xFFFFFFFFFFFFFFFF

/-- TS `computeBreakInterval`: `combined = BigInt(seed) ^ BigInt(round)`,
`rng = xorshift64(combined < 0n ? -combined : combined)`,
`100 + Number(rng % 201n)`. -/
def computeBreakInterval (seed round : Int) : Nat :=
  100 + xorshift64 (Int.xor seed round).natAbs % 201

/-- One iteration of the TS simulation loop body: `stepsSinceBreak++` first,
then break when `stepsSinceBreak >= stepsUntilBreak`, else `value++`. -/
def iter (seed : Int) (st : SimSt) : SimSt :=
  if computeBreakInterval seed st.round ≤ st.ssb + 1 then
    ⟨0, st.round + 1, 0, true⟩
  else
    ⟨st.value + 1, st.round, st.ssb + 1, false⟩

/-- The TS loop `for (let step = 0; step <= currentStep; step++)` run up to
step index `n`. -/
def sim (seed : Int) : Nat → SimSt
  | 0 => iter seed initSt
  | n + 1 => iter seed (sim seed n)

/-- TS `stateAt`: `{step:0,value:0,round:0,broken:false}` when `elapsed < 0`;
otherwise simulate up to `currentStep = Math.floor(elapsed / tickMs)` (when
`currentStep` is negative the loop body never runs and the initial
accumulator is reported). -/
def stateAt (seed startAt tickMs now : Int) : State :=
  let elapsed := now - startAt
  if elapsed < 0 then ⟨0, 0, 0, false⟩
  else
    let currentStep := Int.fdiv elapsed tickMs
    if currentStep < 0 then ⟨currentStep, 0, 0, false⟩
    else
      let st := sim seed currentStep.toNat
      ⟨currentStep, st.value, st.round, st.broken⟩

/-- TS `getCurrentStep`: 0 when `elapsed < 0`, else `Math.floor(elapsed / tickMs)`. -/
def getCurrentStep (startAt tickMs now : Int) : Int :=
  let elapsed := now - startAt
  if elapsed < 0 then 0 else Int.fdiv elapsed tickMs

/-- TS `msUntilNextTick`: `startAt - now` while waiting for start, otherwise
the distance to the next tick boundary `startAt + (currentStep + 1) * tickMs`. -/
def msUntilNextTick (startAt tickMs now : Int) : Int :=
  if now < startAt then startAt - now
  else
    let elapsed := now - startAt
    let currentStep := Int.fdiv elapsed tickMs
    let nextTickAt := startAt + (currentStep + 1) * tickMs
    nextTickAt - now

theorem tsComputeBreakInterval_lb (seed round : Int) :
    100 ≤ computeBreakInterval seed round :=
  Nat.le_add_right 100 _

theorem tsComputeBreakInterval_ub (seed round : Int) :
    computeBreakInterval seed round ≤ 300 := by
  have h : xorshift64 (Int.xor seed round).natAbs % 201 < 201 :=
    Nat.mod_lt _ (by norm_num)
  unfold computeBreakInterval
  omega

/-- Before the first break interval is reached no break occurs: after
iteration `n` with `n + 1 < I(seed,0)` the TS accumulator is
`⟨n+1, 0, n+1, false⟩`. -/
theorem tsSim_no_break (seed : Int) (n : Nat)
    (h : n + 1 < computeBreakInterval seed 0) :
    sim seed n = ⟨n + 1, 0, n + 1, false⟩ := by
  induction n with
  | zero =>
    have h100 := tsComputeBreakInterval_lb seed 0
    simp only [sim, iter, initSt]
    rw [if_neg]
    simp only [Nat.cast_zero]
    omega
  | succ n ih =>
    have hn : n + 1 < computeBreakInterval seed 0 := Nat.lt_of_succ_lt h
    have hr : sim seed n = ⟨n + 1, 0, n + 1, false⟩ := ih hn
    simp only [sim, iter, hr]
    rw [if_neg]
    simp only [Nat.cast_zero]
    omega

/-- The TS engine performs its first break at iteration `I(seed,0) - 1`. -/
theorem sim_first_break (seed : Int) (n : Nat)
    (h : computeBreakInterval seed 0 = n + 1) :
    sim seed n = ⟨0, 1, 0, true⟩ := by
  cases n with
  | zero =>
    simp only [sim, iter, initSt]
    rw [if_pos]
    simp only [Nat.cast_zero]
    omega
  | succ n =>
    have hr : sim seed n = ⟨n + 1, 0, n + 1, false⟩ :=
      tsSim_no_break seed n (by omega)
    simp only [sim, iter, hr]
    rw [if_pos]
    simp only [Nat.cast_zero]
    omega

/-- The TS accumulator keeps `value = stepsSinceBreak` and
`stepsSinceBreak < I(seed, round)` at every step. -/
theorem tsSim_invariant (seed : Int) (n : Nat) :
    (sim seed n).value = (sim seed n).ssb ∧
      (sim seed n).ssb < computeBreakInterval seed ((sim seed n).round : Int) := by
  induction n with
  | zero =>
    simp only [sim, iter, initSt]
    split
    · next hc =>
      exact ⟨rfl, Nat.lt_of_lt_of_le (by norm_num) (tsComputeBreakInterval_lb seed _)⟩
    · next hc =>
      exact ⟨rfl, Nat.lt_of_not_le hc⟩
  | succ n ih =>
    simp only [sim, iter]
    split
    · next hc =>
      exact ⟨rfl, Nat.lt_of_lt_of_le (by norm_num) (tsComputeBreakInterval_lb seed _)⟩
    · next hc =>
      refine ⟨?_, ?_⟩
      · show (sim seed n).value + 1 = (sim seed n).ssb + 1
        rw [ih.1]
      · show (sim seed n).ssb + 1 < computeBreakInterval seed ((sim seed n).round : Int)
        exact Nat.lt_of_not_le hc

/-- TS round counter never decreases over one iteration. -/
theorem tsSim_round_le_succ (seed : Int) (n : Nat) :
    (sim seed n).round ≤ (sim seed (n + 1)).round := by
  conv_rhs => rw [sim]
  unfold iter
  split <;> simp

/-- TS round counter is monotone in the step index. -/
theorem tsSim_round_mono (seed : Int) {m n : Nat} (h : m ≤ n) :
    (sim seed m).round ≤ (sim seed n).round := by
  induction h with
  | refl => exact Nat.le_refl _
  | step _ ih => exact Nat.le_trans ih (tsSim_round_le_succ seed _)

/-- The round field of `stateAt` is never negative. -/
theorem stateAt_round_nonneg (seed startAt tickMs now : Int) :
    0 ≤ (stateAt seed startAt tickMs now).round := by
  by_cases h : now - startAt < 0 <;>
    by_cases h2 : Int.fdiv (now - startAt) tickMs < 0 <;>
      simp [stateAt, h, h2]

end TsEngine

/-! ### Claim C1: bit-exact agreement of the two engine implementations -/

/-- C1: the claim that Go `StateAt` and TS `stateAt` agree bit-exactly on
every `(seed, startAt, tickMs, now)` is violated: at seed 12345, startAt 0,
tickMs 1, now 135 the Go engine has not yet broken (value 136, round 0,
broken false) while the TS engine performs its first break there (value 0,
round 1, broken true), because Go compares `stepWithinRound >= nextBreakAt`
before incrementing and TS increments `stepsSinceBreak` before comparing. -/
theorem c1_engines_disagree_at_seed12345 :
    Engine.StateAt 12345 0 1 135 = ⟨135, 136, 0, false⟩ ∧
      TsEngine.stateAt 12345 0 1 135 = ⟨135, 0, 1, true⟩ ∧
      Engine.StateAt 12345 0 1 135 ≠ TsEngine.stateAt 12345 0 1 135 := by
  have hI : Engine.computeBreakInterval 12345 0 = 136 := by decide
  have hI' : TsEngine.computeBreakInterval 12345 0 = 136 := by decide
  have hgo : Engine.sim 12345 135 = ⟨136, 0, 136, false⟩ := by
    have h := Engine.sim_no_break 12345 135 (by rw [hI]; norm_num)
    simpa using h
  have hts : TsEngine.sim 12345 135 = ⟨0, 1, 0, true⟩ :=
    TsEngine.sim_first_break 12345 135 (by rw [hI'])
  have h1 : Engine.StateAt 12345 0 1 135 = ⟨135, 136, 0, false⟩ := by
    simp [Engine.StateAt, hgo]
  have h2 : TsEngine.stateAt 12345 0 1 135 = ⟨135, 0, 1, true⟩ := by
    simp [TsEngine.stateAt, hts]
  refine ⟨h1, h2, ?_⟩
  rw [h1, h2]
  simp

/-! ### Claim C2: the break-interval formula -/

/-- Taking the low 64 bits commutes with xor against a value that already
fits in 64 bits. -/
theorem xor_mod_two_pow_left {u v : Nat} (n : Nat) (hu : u < 2 ^ n) :
    (u ^^^ v) % 2 ^ n = u ^^^ v % 2 ^ n := by
  apply Nat.eq_of_testBit_eq
  intro i
  rcases Nat.lt_or_ge i n with h | h
  · simp [Nat.testBit_mod_two_pow, h, Nat.testBit_xor]
  · have hu' : u.testBit i = false :=
      Nat.testBit_lt_two_pow
        (Nat.lt_of_lt_of_le hu (Nat.pow_le_pow_right (by norm_num) h))
    simp [Nat.testBit_mod_two_pow, Nat.not_lt.2 h, Nat.testBit_xor, hu']

/-- For inputs below `2^51` no intermediate bit of the TS xorshift spills
past bit 63, so masking only at the end (TS) agrees with wrapping every
operation (Go). -/
theorem tsXorshift64_eq_goXorshift64 {x : Nat} (hx : x < 2 ^ 51) :
    TsEngine.xorshift64 x = Engine.xorshift64 x := by
  have hx64 : x < 2 ^ 64 := lt_trans hx (by norm_num)
  have h13 : x <<< 13 < 2 ^ 64 := by
    rw [Nat.shiftLeft_eq]
    calc x * 2 ^ 13 < 2 ^ 51 * 2 ^ 13 := by
          exact Nat.mul_lt_mul_of_lt_of_le hx (Nat.le_refl _) (by norm_num)
      _ = 2 ^ 64 := by norm_num
  have ha : x ^^^ (x <<< 13) < 2 ^ 64 := Nat.xor_lt_two_pow hx64 h13
  have hshr : (x ^^^ (x <<< 13)) >>> 7 ≤ x ^^^ (x <<< 13) := by
    rw [Nat.shiftRight_eq_div_pow]
    exact Nat.div_le_self _ _
  have hb : (x ^^^ (x <<< 13)) ^^^ ((x ^^^ (x <<< 13)) >>> 7) < 2 ^ 64 :=
    Nat.xor_lt_two_pow ha (Nat.lt_of_le_of_lt hshr ha)
  simp only [TsEngine.xorshift64, Engine.xorshift64, Nat.mod_eq_of_lt h13]
  rw [show (0xFFFFFFFFFFFFFFFF : Nat) = 2 ^ 64 - 1 from rfl]
  rw [Nat.and_pow_two_sub_one_eq_mod]
  exact xor_mod_two_pow_left 64 hb

/-- `uint64` reinterpretation of a non-negative integer is its absolute
value reduced modulo `2^64`. -/
theorem u64ofInt_of_nonneg {i : Int} (h : 0 ≤ i) :
    u64ofInt i = i.natAbs % 2 ^ 64 := by
  unfold u64ofInt
  omega

/-- C2 (amended): both engines always produce an interval in `[100, 300]`,
and whenever `seed XOR r` is non-negative and below `2^51` both engines
compute exactly `100 + (xorshift64(|seed XOR r|) mod 201)` with xorshift64
on a mod-`2^64` lane.  (In general the Go engine feeds the two's-complement
`uint64` reinterpretation of `seed XOR r` — not its absolute value — to
xorshift64, and the TS engine reduces modulo `2^64` only after the three
shift steps.) -/
theorem c2_break_interval_formula (seed : Int) (r : Nat)
    (hx0 : 0 ≤ Int.xor seed (r : Int))
    (hx51 : (Int.xor seed (r : Int)).natAbs < 2 ^ 51) :
    (Engine.computeBreakInterval seed (r : Int) =
        100 + Engine.xorshift64 ((Int.xor seed (r : Int)).natAbs % 2 ^ 64) % 201 ∧
      TsEngine.computeBreakInterval seed (r : Int) =
        100 + Engine.xorshift64 ((Int.xor seed (r : Int)).natAbs % 2 ^ 64) % 201) ∧
      (100 ≤ Engine.computeBreakInterval seed (r : Int) ∧
        Engine.computeBreakInterval seed (r : Int) ≤ 300 ∧
        100 ≤ TsEngine.computeBreakInterval seed (r : Int) ∧
        TsEngine.computeBreakInterval seed (r : Int) ≤ 300) := by
  have hmod : (Int.xor seed (r : Int)).natAbs % 2 ^ 64 = (Int.xor seed (r : Int)).natAbs :=
    Nat.mod_eq_of_lt (lt_trans hx51 (by norm_num))
  refine ⟨⟨?_, ?_⟩, Engine.computeBreakInterval_lb _ _, Engine.computeBreakInterval_ub _ _,
    TsEngine.tsComputeBreakInterval_lb _ _, TsEngine.tsComputeBreakInterval_ub _ _⟩
  · unfold Engine.computeBreakInterval
    rw [u64ofInt_of_nonneg hx0]
  · unfold TsEngine.computeBreakInterval
    rw [hmod, tsXorshift64_eq_goXorshift64 hx51]

/-- C2 witness: at seed 12345 and round 0 the hypotheses hold and the Go
engine matches the spec formula. -/
theorem c2_break_interval_formula_witness :
    Engine.computeBreakInterval 12345 ((0 : Nat) : Int) =
      100 + Engine.xorshift64 ((Int.xor 12345 ((0 : Nat) : Int)).natAbs % 2 ^ 64) % 201 :=
  (c2_break_interval_formula 12345 0 (by decide) (by decide)).1.1

/-- C2 counterexample: at seed `-2`, round 0, the Go engine feeds
`uint64(-2) = 2^64 - 2` (not `|-2| = 2`) to xorshift64, so its interval (199)
differs from the claimed formula (169). -/
theorem c2_counterexample :
    Engine.computeBreakInterval (-2) 0 ≠
      100 + Engine.xorshift64 ((Int.xor (-2) (0 : Int)).natAbs % 2 ^ 64) % 201 := by
  decide

/-! ### Claim C3: the step formula -/

/-- C3: for `tickMs > 0` the step field of both engines equals
`max(0, floor((now - startAt) / tickMs))`. -/
theorem c3_step_formula (seed startAt tickMs now : Int) (ht : 0 < tickMs) :
    (Engine.StateAt seed startAt tickMs now).step =
        max 0 (Int.fdiv (now - startAt) tickMs) ∧
      (TsEngine.stateAt seed startAt tickMs now).step =
        max 0 (Int.fdiv (now - startAt) tickMs) := by
  by_cases h : now < startAt
  · have hneg : Int.fdiv (now - startAt) tickMs < 0 :=
      Int.fdiv_neg' (by omega) ht
    have hmax : max 0 (Int.fdiv (now - startAt) tickMs) = 0 := by omega
    have h' : now - startAt < 0 := by omega
    constructor
    · simp [Engine.StateAt, h, hmax]
    · simp [TsEngine.stateAt, h', hmax]
  · have hnn : 0 ≤ Int.fdiv (now - startAt) tickMs :=
      Int.fdiv_nonneg (by omega) (le_of_lt ht)
    have hmax : max 0 (Int.fdiv (now - startAt) tickMs) =
        Int.fdiv (now - startAt) tickMs := by omega
    have h' : ¬ now - startAt < 0 := by omega
    have h2 : ¬ Int.fdiv (now - startAt) tickMs < 0 := by omega
    constructor
    · simp [Engine.StateAt, h, h2, hmax]
    · simp [TsEngine.stateAt, h', h2, hmax]

/-- C3 witness. -/
theorem c3_step_formula_witness :
    (Engine.StateAt 12345 0 100 500).step = max 0 (Int.fdiv (500 - 0) 100) ∧
      (TsEngine.stateAt 12345 0 100 500).step = max 0 (Int.fdiv (500 - 0) 100) :=
  c3_step_formula 12345 0 100 500 (by norm_num)

/-! ### Claim C4: value bounds -/

/-- C4: for `tickMs > 0` both engines keep `0 ≤ value ≤ 300`. -/
theorem c4_value_bounds (seed startAt tickMs now : Int) (ht : 0 < tickMs) :
    (0 ≤ (Engine.StateAt seed startAt tickMs now).value ∧
        (Engine.StateAt seed startAt tickMs now).value ≤ 300) ∧
      (0 ≤ (TsEngine.stateAt seed startAt tickMs now).value ∧
        (TsEngine.stateAt seed startAt tickMs now).value ≤ 300) := by
  have hgo : ∀ n : Nat, (Engine.sim seed n).value ≤ 300 := by
    intro n
    have h1 := Engine.sim_invariant seed n
    have h2 := Engine.computeBreakInterval_ub seed ((Engine.sim seed n).round : Int)
    omega
  have hts : ∀ n : Nat, (TsEngine.sim seed n).value ≤ 300 := by
    intro n
    have h1 := TsEngine.tsSim_invariant seed n
    have h2 := TsEngine.tsComputeBreakInterval_ub seed ((TsEngine.sim seed n).round : Int)
    omega
  constructor
  · by_cases h : now < startAt
    · simp [Engine.StateAt, h]
    · by_cases h2 : Int.fdiv (now - startAt) tickMs < 0
      · simp [Engine.StateAt, h, h2]
      · have hv := hgo (Int.toNat (Int.fdiv (now - startAt) tickMs))
        simp only [Engine.StateAt, if_neg h, if_neg h2]
        constructor
        · exact Int.natCast_nonneg _
        · exact_mod_cast hv
  · by_cases h : now - startAt < 0
    · simp [TsEngine.stateAt, h]
    · by_cases h2 : Int.fdiv (now - startAt) tickMs < 0
      · simp [TsEngine.stateAt, h, h2]
      · have hv := hts (Int.toNat (Int.fdiv (now - startAt) tickMs))
        simp only [TsEngine.stateAt, if_neg h, if_neg h2]
        constructor
        · exact Int.natCast_nonneg _
        · exact_mod_cast hv

/-- C4 witness. -/
theorem c4_value_bounds_witness :
    (0 ≤ (Engine.StateAt 12345 0 100 500).value ∧
        (Engine.StateAt 12345 0 100 500).value ≤ 300) ∧
      (0 ≤ (TsEngine.stateAt 12345 0 100 500).value ∧
        (TsEngine.stateAt 12345 0 100 500).value ≤ 300) :=
  c4_value_bounds 12345 0 100 500 (by norm_num)

/-! ### Claim C5: round monotonicity -/

/-- C5: for fixed `(seed, startAt, tickMs)` with `tickMs > 0`, the round
field of both engines is monotone in `now`. -/
theorem c5_round_monotone (seed startAt tickMs now1 now2 : Int) (ht : 0 < tickMs)
    (h12 : now1 ≤ now2) :
    (Engine.StateAt seed startAt tickMs now1).round ≤
        (Engine.StateAt seed startAt tickMs now2).round ∧
      (TsEngine.stateAt seed startAt tickMs now1).round ≤
        (TsEngine.stateAt seed startAt tickMs now2).round := by
  have hstep : Int.fdiv (now1 - startAt) tickMs ≤ Int.fdiv (now2 - startAt) tickMs := by
    rw [Int.fdiv_eq_ediv _ (le_of_lt ht), Int.fdiv_eq_ediv _ (le_of_lt ht)]
    exact Int.ediv_le_ediv ht (by omega)
  constructor
  · by_cases h1 : now1 < startAt
    · have hz : (Engine.StateAt seed startAt tickMs now1).round = 0 := by
        simp [Engine.StateAt, h1]
      rw [hz]
      exact Engine.StateAt_round_nonneg seed startAt tickMs now2
    · have h2 : ¬ now2 < startAt := by omega
      have s1nn : 0 ≤ Int.fdiv (now1 - startAt) tickMs :=
        Int.fdiv_nonneg (by omega) (le_of_lt ht)
      have s2nn : 0 ≤ Int.fdiv (now2 - startAt) tickMs :=
        Int.fdiv_nonneg (by omega) (le_of_lt ht)
      have hs1 : ¬ Int.fdiv (now1 - startAt) tickMs < 0 := by omega
      have hs2 : ¬ Int.fdiv (now2 - startAt) tickMs < 0 := by omega
      have hn : (Int.fdiv (now1 - startAt) tickMs).toNat ≤
          (Int.fdiv (now2 - startAt) tickMs).toNat := by omega
      simp only [Engine.StateAt, if_neg h1, if_neg h2, if_neg hs1, if_neg hs2]
      exact_mod_cast Engine.sim_round_mono seed hn
  · by_cases h1 : now1 - startAt < 0
    · have hz : (TsEngine.stateAt seed startAt tickMs now1).round = 0 := by
        simp [TsEngine.stateAt, h1]
      rw [hz]
      exact TsEngine.stateAt_round_nonneg seed startAt tickMs now2
    · have h2 : ¬ now2 - startAt < 0 := by omega
      have s1nn : 0 ≤ Int.fdiv (now1 - startAt) tickMs :=
        Int.fdiv_nonneg (by omega) (le_of_lt ht)
      have s2nn : 0 ≤ Int.fdiv (now2 - startAt) tickMs :=
        Int.fdiv_nonneg (by omega) (le_of_lt ht)
      have hs1 : ¬ Int.fdiv (now1 - startAt) tickMs < 0 := by omega
      have hs2 : ¬ Int.fdiv (now2 - startAt) tickMs < 0 := by omega
      have hn : (Int.fdiv (now1 - startAt) tickMs).toNat ≤
          (Int.fdiv (now2 - startAt) tickMs).toNat := by omega
      simp only [TsEngine.stateAt, if_neg h1, if_neg h2, if_neg hs1, if_neg hs2]
      exact_mod_cast TsEngine.tsSim_round_mono seed hn

/-- C5 witness. -/
theorem c5_round_monotone_witness :
    (Engine.StateAt 12345 0 100 300).round ≤ (Engine.StateAt 12345 0 100 500).round ∧
      (TsEngine.stateAt 12345 0 100 300).round ≤ (TsEngine.stateAt 12345 0 100 500).round :=
  c5_round_monotone 12345 0 100 300 500 (by norm_num) (by norm_num)

/-! ### Claim C6: state at the initial tick -/

/-- C6: for `tickMs > 0`, both engines return exactly
`{step: 0, value: 1, round: 0, broken: false}` at `now = startAt`. -/
theorem c6_initial_tick (seed startAt tickMs : Int) (ht : 0 < tickMs) :
    Engine.StateAt seed startAt tickMs startAt = ⟨0, 1, 0, false⟩ ∧
      TsEngine.stateAt seed startAt tickMs startAt = ⟨0, 1, 0, false⟩ := by
  have hI := TsEngine.tsComputeBreakInterval_lb seed 0
  have hcond : ¬ TsEngine.computeBreakInterval seed 0 ≤ 0 + 1 := by omega
  constructor
  · simp [Engine.StateAt, Engine.sim, Engine.iter, initSt, Int.zero_fdiv]
  · simp [TsEngine.stateAt, TsEngine.sim, TsEngine.iter, initSt, Int.zero_fdiv, hcond]

/-- C6 witness. -/
theorem c6_initial_tick_witness :
    Engine.StateAt 12345 1705312800000 100 1705312800000 = ⟨0, 1, 0, false⟩ ∧
      TsEngine.stateAt 12345 1705312800000 100 1705312800000 = ⟨0, 1, 0, false⟩ :=
  c6_initial_tick 12345 1705312800000 100 (by norm_num)

/-! ### Session handlers

`SessionHttp` embeds the Go HTTP handlers of
`deterministic-backend/internal/http/handler.go` (CreateSession /
StopSession); `TsSessions` embeds the tick-broadcaster Lambda handler
`handleCreateSession` of `src/handlers/sessions.ts`.  Only the pure
request → stored-row/response computation is modelled: identifier
generation is irrelevant to the claims, `time.Now()` is passed in as `now`,
and the store write is taken to succeed. -/

/-- The fields of Go `types.Session` / TS `GameSession` that the claims
inspect. -/
structure Session where
  status : String
  startAt : Int
  tickMs : Int
  stoppedAt : Option Int
deriving DecidableEq

namespace SessionHttp

/-- Result of a handler: HTTP status code plus the session row written to
(or left in) the store, `none` when nothing is stored. -/
structure HandlerResult where
  code : Nat
  session : Option Session
deriving DecidableEq

/-- Go `CreateSession` (pure core): reject `tick_ms <= 0` with 400; the row
written to the store has `Status: "running"` and `StartAt` equal to the
parsed `start_at` when provided, else `time.Now().Add(3 * time.Second)`. -/
def CreateSession (tickMs : Int) (reqStartAt : Option Int) (now : Int) : HandlerResult :=
  if tickMs ≤ 0 then ⟨400, none⟩
  else
    let startAt := match reqStartAt with
      | some t => t
      | none => now + 3000
    ⟨201, some ⟨"running", startAt, tickMs, none⟩⟩

/-- Go `StopSession` (pure core): 404 when the session does not exist;
400 and no write when `session.Status == "stopped"`; otherwise set the
status to `"stopped"`, record `StoppedAt`, and answer 200. -/
def StopSession (sess : Option Session) (now : Int) : HandlerResult :=
  match sess with
  | none => ⟨404, none⟩
  | some s =>
    if s.status = "stopped" then ⟨400, some s⟩
    else ⟨200, some { s with status := "stopped", stoppedAt := some now }⟩

end SessionHttp

namespace TsSessions

/-- TS `handleCreateSession` (pure core): reject a missing/empty `userId`
with 400; otherwise the row written to DynamoDB has `status: 'waiting'` and
`startAt = now + tickConfig.countdownMs`, with `tickMs` from the tick
config. -/
def handleCreateSession (userId : String) (countdownMs defaultTickMs : Int)
    (now : Int) : SessionHttp.HandlerResult :=
  if userId = "" then ⟨400, none⟩
  else ⟨201, some ⟨"waiting", now + countdownMs, defaultTickMs, none⟩⟩

end TsSessions

/-! ### Claim C7: session-create writes status=waiting, startAt=now+countdown -/

/-- C7 counterexample: the Go `CreateSession` handler writes
`status = "running"`, not `"waiting"`, for a request that passes
validation. -/
theorem c7_counterexample :
    (SessionHttp.CreateSession 100 none 0).session.map Session.status ≠
      some "waiting" := by
  decide

/-- C7 (amended): the tick-broadcaster handler writes a row with
`status = "waiting"` and `startAt = now + countdownMs` for every request
that passes validation; the Go backend handler instead writes
`status = "running"` with `startAt = now + 3000` when no `start_at` is
supplied (and the client-provided `start_at` otherwise). -/
theorem c7_create_session (userId : String) (countdownMs defaultTickMs now : Int)
    (tickMs : Int) (t : Int) (hu : userId ≠ "") (htm : 0 < tickMs) :
    TsSessions.handleCreateSession userId countdownMs defaultTickMs now =
        ⟨201, some ⟨"waiting", now + countdownMs, defaultTickMs, none⟩⟩ ∧
      SessionHttp.CreateSession tickMs none now =
        ⟨201, some ⟨"running", now + 3000, tickMs, none⟩⟩ ∧
      SessionHttp.CreateSession tickMs (some t) now =
        ⟨201, some ⟨"running", t, tickMs, none⟩⟩ := by
  have hneg : ¬ tickMs ≤ 0 := by omega
  refine ⟨?_, ?_, ?_⟩
  · simp [TsSessions.handleCreateSession, hu]
  · simp [SessionHttp.CreateSession, hneg]
  · simp [SessionHttp.CreateSession, hneg]

/-- C7 witness. -/
theorem c7_create_session_witness :
    TsSessions.handleCreateSession "user-1" 3000 100 1000 =
        ⟨201, some ⟨"waiting", 1000 + 3000, 100, none⟩⟩ ∧
      SessionHttp.CreateSession 100 none 1000 =
        ⟨201, some ⟨"running", 1000 + 3000, 100, none⟩⟩ ∧
      SessionHttp.CreateSession 100 (some 777) 1000 =
        ⟨201, some ⟨"running", 777, 100, none⟩⟩ :=
  c7_create_session "user-1" 3000 100 1000 100 777 (by decide) (by norm_num)

/-! ### Claim C9: StopSession and terminal "stopped" status -/

/-- C9: stopping an already-stopped session answers 400 and leaves the
stored row unchanged; stopping a session in any other status answers 200
and sets the stored status to `"stopped"`. -/
theorem c9_stop_session (s : Session) (now : Int) :
    (s.status = "stopped" →
        SessionHttp.StopSession (some s) now = ⟨400, some s⟩) ∧
      (s.status ≠ "stopped" →
        (SessionHttp.StopSession (some s) now).code = 200 ∧
          (SessionHttp.StopSession (some s) now).session.map Session.status =
            some "stopped") := by
  constructor
  · intro h
    simp [SessionHttp.StopSession, h]
  · intro h
    simp [SessionHttp.StopSession, h]

/-- C9 witness. -/
theorem c9_stop_session_witness :
    SessionHttp.StopSession (some ⟨"stopped", 0, 100, none⟩) 5 =
        ⟨400, some ⟨"stopped", 0, 100, none⟩⟩ ∧
      (SessionHttp.StopSession (some ⟨"running", 0, 100, none⟩) 5).code = 200 :=
  ⟨(c9_stop_session ⟨"stopped", 0, 100, none⟩ 5).1 rfl,
    ((c9_stop_session ⟨"running", 0, 100, none⟩ 5).2 (by decide)).1⟩

/-! ### Claim C10: msUntilNextTick -/

/-- C10: for `tickMs > 0`, `msUntilNextTick` returns
`startAt + (floor((now-startAt)/tickMs) + 1) * tickMs - now` when
`now ≥ startAt` — a value that is strictly positive and at most `tickMs` —
and `startAt - now` when `now < startAt`. -/
theorem c10_ms_until_next_tick (startAt tickMs now : Int) (ht : 0 < tickMs) :
    (startAt ≤ now →
        TsEngine.msUntilNextTick startAt tickMs now =
            startAt + (Int.fdiv (now - startAt) tickMs + 1) * tickMs - now ∧
          0 < TsEngine.msUntilNextTick startAt tickMs now ∧
          TsEngine.msUntilNextTick startAt tickMs now ≤ tickMs) ∧
      (now < startAt → TsEngine.msUntilNextTick startAt tickMs now = startAt - now) := by
  constructor
  · intro hle
    have hnl : ¬ now < startAt := by omega
    have heq : TsEngine.msUntilNextTick startAt tickMs now =
        startAt + (Int.fdiv (now - startAt) tickMs + 1) * tickMs - now := by
      simp [TsEngine.msUntilNextTick, hnl]
    have hfd : Int.fdiv (now - startAt) tickMs = (now - startAt) / tickMs :=
      Int.fdiv_eq_ediv _ (le_of_lt ht)
    have hup : now - startAt < (Int.fdiv (now - startAt) tickMs + 1) * tickMs := by
      rw [hfd]
      exact Int.lt_ediv_add_one_mul_self _ ht
    have hlo : Int.fdiv (now - startAt) tickMs * tickMs ≤ now - startAt := by
      rw [hfd]
      exact Int.ediv_mul_le _ (by omega)
    refine ⟨heq, ?_, ?_⟩
    · rw [heq]; omega
    · rw [heq]
      have : (Int.fdiv (now - startAt) tickMs + 1) * tickMs =
          Int.fdiv (now - startAt) tickMs * tickMs + tickMs := by ring
      omega
  · intro hlt
    simp [TsEngine.msUntilNextTick, hlt]

/-- C10 witness. -/
theorem c10_ms_until_next_tick_witness :
    (TsEngine.msUntilNextTick 0 100 250 =
        0 + (Int.fdiv (250 - 0) 100 + 1) * 100 - 250 ∧
      0 < TsEngine.msUntilNextTick 0 100 250 ∧
      TsEngine.msUntilNextTick 0 100 250 ≤ 100) ∧
      TsEngine.msUntilNextTick 100 100 40 = 100 - 40 :=
  ⟨(c10_ms_until_next_tick 0 100 250 (by norm_num)).1 (by norm_num),
    (c10_ms_until_next_tick 100 100 40 (by norm_num)).2 (by norm_num)⟩

/-! ### Latency measurement and enforcement

`Latency` embeds the pure parts of `src/utils/latency.ts` together with the
message-emission logic of the WebSocket `handlePing` handler
(`src/handlers/websocket.ts`) and of one connection's pass of
`handleLatencyMonitor` (`src/handlers/latency.ts`).  The outcome records
which messages were emitted and whether the connection status was set to
`kicked`; the unconditional `pong` reply is not tracked.  JS `Math.round` /
`Math.sqrt` on exact integer data are modelled exactly (round half toward
positive infinity, rounded square root). -/

namespace Latency

structure LatencyThresholds where
  maxLatencyMs : Int
  maxJitterMs : Int
  warningLatencyMs : Int
  warningJitterMs : Int
  sampleCount : Nat
deriving DecidableEq

inductive LatencyStatus
  | ok
  | warning
  | critical
deriving DecidableEq

structure LatencyCheckResult where
  status : LatencyStatus
  avgLatency : Int
  jitter : Int
  shouldKick : Bool
deriving DecidableEq

/-- `Math.round(a / n)` for an integer numerator over `n > 0` samples:
floor of the quotient plus one half. -/
def jsRoundDiv (a : Int) (n : Nat) : Int := Int.fdiv (2 * a + n) (2 * n)

/-- TS `calculateAvgLatency`: 0 on an empty list, else the rounded mean. -/
def calculateAvgLatency (samples : List Int) : Int :=
  if samples.length = 0 then 0
  else jsRoundDiv samples.sum samples.length

/-- Fuel-based Newton iteration for the integer square root (structurally
recursive, so concrete instances reduce inside the kernel). -/
def isqrtAux (n : Nat) : Nat → Nat → Nat
  | guess, 0 => guess
  | guess, fuel + 1 =>
    let next := (guess + n / guess) / 2
    if next < guess then isqrtAux n next fuel else guess

/-- Kernel-reducible integer square root, equal to `Nat.sqrt`. -/
def isqrt (n : Nat) : Nat :=
  if n ≤ 1 then n else isqrtAux n (n / 2) n

theorem isqrtAux_eq_iter (n : Nat) (fuel : Nat) :
    ∀ guess, guess ≤ fuel → isqrtAux n guess fuel = Nat.sqrt.iter n guess := by
  induction fuel with
  | zero =>
    intro guess hg
    have hg0 : guess = 0 := Nat.le_zero.1 hg
    subst hg0
    rw [isqrtAux, Nat.sqrt.iter]
    simp
  | succ fuel ih =>
    intro guess hg
    rw [isqrtAux, Nat.sqrt.iter]
    by_cases h : (guess + n / guess) / 2 < guess
    · simp only [if_pos h, dif_pos h]
      exact ih _ (by omega)
    · simp only [if_neg h, dif_neg h]

theorem isqrt_eq_sqrt (n : Nat) : isqrt n = Nat.sqrt n := by
  unfold isqrt Nat.sqrt
  by_cases h : n ≤ 1
  · simp [h]
  · simp only [if_neg h]
    exact isqrtAux_eq_iter n n (n / 2) (Nat.div_le_self n 2)

/-- `Math.round(Math.sqrt(a / n))` for natural `a`, `n`: the rounded square
root of the rational `a / n`. -/
def jsRoundSqrtDiv (a n : Nat) : Nat := (isqrt (4 * a / n) + 1) / 2

/-- TS `calculateJitter`: population standard deviation of the samples,
rounded; 0 with fewer than two samples. -/
def calculateJitter (samples : List Int) : Int :=
  if samples.length < 2 then 0
  else
    let avg := calculateAvgLatency samples
    let squaredDiffsSum := (samples.map fun s => (s - avg) * (s - avg)).sum
    (jsRoundSqrtDiv squaredDiffsSum.toNat samples.length : Int)

/-- JS `array.slice(-k)`: the last `k` elements of the array — except that
`slice(-0)` is `slice(0)`, the whole array. -/
def sliceLast (l : List Int) (k : Nat) : List Int :=
  if k = 0 then l else l.drop (l.length - k)

/-- TS `addLatencySample`: append and keep at most the last `maxSamples`. -/
def addLatencySample (history : List Int) (newSample : Int) (maxSamples : Nat) :
    List Int :=
  let updated := history ++ [newSample]
  if maxSamples < updated.length then sliceLast updated maxSamples else updated

/-- TS `checkLatencyThresholds`: `critical`+kick when the average or jitter
exceeds the hard bounds, `warning` when it exceeds the warning bounds,
`ok` otherwise. -/
def checkLatencyThresholds (samples : List Int) (config : LatencyThresholds) :
    LatencyCheckResult :=
  let avgLatency := calculateAvgLatency samples
  let jitter := calculateJitter samples
  if avgLatency > config.maxLatencyMs ∨ jitter > config.maxJitterMs then
    ⟨.critical, avgLatency, jitter, true⟩
  else if avgLatency > config.warningLatencyMs ∨ jitter > config.warningJitterMs then
    ⟨.warning, avgLatency, jitter, false⟩
  else
    ⟨.ok, avgLatency, jitter, false⟩

/-- The connection fields `handlePing` reads. -/
structure PingConn where
  latencyHistory : List Int
  lastPongAt : Int
deriving DecidableEq

/-- What a latency pass did: the (possibly extended) history, whether a
`latency_status` or `kicked` message was sent, and whether the stored
connection status was set to `kicked`. -/
structure PingOutcome where
  newHistory : List Int
  sentLatencyStatus : Bool
  sentKicked : Bool
  statusSetKicked : Bool
deriving DecidableEq

/-- The latency estimate of `handlePing`:
`serverTimestamp - clientTimestamp` when a previous pong and a client
timestamp exist, else 0. -/
def pingLatency (conn : PingConn) (clientTimestamp serverTimestamp : Int) : Int :=
  if 0 < conn.lastPongAt ∧ 0 < clientTimestamp then
    serverTimestamp - clientTimestamp
  else 0

/-- The rolling history after `handlePing`: extended by the latency
estimate when that estimate is positive. -/
def pingNewHistory (conn : PingConn) (clientTimestamp serverTimestamp : Int)
    (thresholds : LatencyThresholds) : List Int :=
  if 0 < pingLatency conn clientTimestamp serverTimestamp then
    addLatencySample conn.latencyHistory
      (pingLatency conn clientTimestamp serverTimestamp) thresholds.sampleCount
  else conn.latencyHistory

/-- TS `handlePing` (pure core): classify the extended history and emit
`kicked` or `latency_status` only when the classification is not `ok` and
the new history has at least `sampleCount` samples. -/
def handlePing (conn : PingConn) (clientTimestamp serverTimestamp : Int)
    (thresholds : LatencyThresholds) : PingOutcome :=
  let newHistory := pingNewHistory conn clientTimestamp serverTimestamp thresholds
  let checkResult := checkLatencyThresholds newHistory thresholds
  if checkResult.status ≠ .ok ∧ thresholds.sampleCount ≤ newHistory.length then
    if checkResult.shouldKick then ⟨newHistory, false, true, true⟩
    else ⟨newHistory, true, false, false⟩
  else ⟨newHistory, false, false, false⟩

/-- One connection's pass of TS `handleLatencyMonitor`: skip connections
with fewer than `sampleCount` stored samples, else classify and kick/warn. -/
def handleLatencyMonitorConn (history : List Int) (thresholds : LatencyThresholds) :
    PingOutcome :=
  if history.length < thresholds.sampleCount then ⟨history, false, false, false⟩
  else
    let checkResult := checkLatencyThresholds history thresholds
    if checkResult.status = .ok then ⟨history, false, false, false⟩
    else if checkResult.shouldKick then ⟨history, false, true, true⟩
    else ⟨history, true, false, false⟩

/-- `handlePing` emits nothing and never kicks while the history after the
ping is still shorter than `sampleCount`. -/
theorem handlePing_quiet_below_sampleCount (conn : PingConn) (ct st : Int)
    (thresholds : LatencyThresholds)
    (h : (handlePing conn ct st thresholds).newHistory.length < thresholds.sampleCount) :
    (handlePing conn ct st thresholds).sentLatencyStatus = false ∧
      (handlePing conn ct st thresholds).sentKicked = false ∧
      (handlePing conn ct st thresholds).statusSetKicked = false := by
  revert h
  simp only [handlePing]
  split
  · next hguard =>
    split <;> (intro h; exact absurd hguard.2 (Nat.not_le.2 h))
  · intro _
    exact ⟨rfl, rfl, rfl⟩

end Latency

/-! ### Claim C8: no classification below sampleCount samples -/

/-- C8 counterexample: with the configured defaults
(max 150/50, warning 100/30, sampleCount 5) a connection whose stored
history holds only 4 samples IS kicked by `handlePing` when the ping that
delivers the 5th sample pushes the average over the limit. -/
theorem c8_counterexample :
    ([(200 : Int), 200, 200, 200].length <
        (⟨150, 50, 100, 30, 5⟩ : Latency.LatencyThresholds).sampleCount) ∧
      (Latency.handlePing ⟨[200, 200, 200, 200], 1⟩ 100 300
          ⟨150, 50, 100, 30, 5⟩).sentKicked = true ∧
      (Latency.handlePing ⟨[200, 200, 200, 200], 1⟩ 100 300
          ⟨150, 50, 100, 30, 5⟩).statusSetKicked = true := by
  decide

/-- C8 (amended): the periodic latency monitor emits no message and never
kicks a connection whose stored history has fewer than `sampleCount`
samples; the ping handler emits no message and never kicks as long as the
history after appending the new sample still has fewer than `sampleCount`
samples.  (A connection with exactly `sampleCount - 1` stored samples can
be classified and kicked by the ping that delivers the final sample.) -/
theorem c8_no_classification_below_samples (thresholds : Latency.LatencyThresholds)
    (history : List Int) (conn : Latency.PingConn) (ct st : Int)
    (hmon : history.length < thresholds.sampleCount)
    (hping : (Latency.handlePing conn ct st thresholds).newHistory.length <
      thresholds.sampleCount) :
    Latency.handleLatencyMonitorConn history thresholds =
        ⟨history, false, false, false⟩ ∧
      ((Latency.handlePing conn ct st thresholds).sentLatencyStatus = false ∧
        (Latency.handlePing conn ct st thresholds).sentKicked = false ∧
        (Latency.handlePing conn ct st thresholds).statusSetKicked = false) := by
  constructor
  · simp [Latency.handleLatencyMonitorConn, hmon]
  · exact Latency.handlePing_quiet_below_sampleCount conn ct st thresholds hping

/-- C8 witness. -/
theorem c8_no_classification_below_samples_witness :
    Latency.handleLatencyMonitorConn [10, 10] ⟨150, 50, 100, 30, 5⟩ =
        ⟨[10, 10], false, false, false⟩ ∧
      ((Latency.handlePing ⟨[10, 10], 1⟩ 100 120
            ⟨150, 50, 100, 30, 5⟩).sentLatencyStatus = false ∧
        (Latency.handlePing ⟨[10, 10], 1⟩ 100 120
            ⟨150, 50, 100, 30, 5⟩).sentKicked = false ∧
        (Latency.handlePing ⟨[10, 10], 1⟩ 100 120
            ⟨150, 50, 100, 30, 5⟩).statusSetKicked = false) :=
  c8_no_classification_below_samples ⟨150, 50, 100, 30, 5⟩ [10, 10] ⟨[10, 10], 1⟩
    100 120 (by decide) (by decide)
